import Mathlib

/-!
Verification of the metadata-resolution engine of podhmo/reflect-shape
(`metadata/lookup.go` and `api.go`), as a shallow embedding.

Strings from the Go side are Lean `String`s; the character-level helpers
from Go's `strings` package (`Split`, `Cut`, `Trim`, `TrimSpace`) are
embedded over `List Char`.  External collaborators (the Go runtime symbol
table, `go/parser`, the `commentof` indexer library and
`golang.org/x/tools/go/packages`) are modelled as data supplied by an
environment record, since `lookup.go` only consumes their results.
-/

namespace ReflectShape

/-- Go `strings.Split(s, sep)` for a one-character separator.
Always returns at least one segment. -/
def goSplit (sep : Char) : List Char → List (List Char)
  | [] => [[]]
  | c :: cs =>
    if c = sep then [] :: goSplit sep cs
    else
      match goSplit sep cs with
      | [] => [[c]]
      | h :: t => (c :: h) :: t

/-- Go `strings.Cut(s, sep)` for a one-character separator:
(before, after, found), with `(s, [], false)` when `sep` does not occur. -/
def goCut (sep : Char) : List Char → List Char × List Char × Bool
  | [] => ([], [], false)
  | c :: cs =>
    if c = sep then ([], cs, true)
    else
      let r := goCut sep cs
      (c :: r.1, r.2.1, r.2.2)

/-- Go `strings.Trim(s, cutset)`: remove all leading and trailing
characters satisfying the cutset predicate. -/
def goTrim (p : Char → Bool) (s : List Char) : List Char :=
  ((s.dropWhile p).reverse.dropWhile p).reverse

/-- Whitespace as recognized by Go `strings.TrimSpace` (ASCII part). -/
def goIsSpace (c : Char) : Bool :=
  c == ' ' || c == '\t' || c == '\n' || c == '\x0b' || c == '\x0c' || c == '\r'

/-- Go `strings.TrimSpace`. -/
def goTrimSpace (s : String) : String :=
  String.mk (goTrim goIsSpace s.data)

/-- The cutset `"(*)"` used to strip pointer-receiver decoration
(`strings.Trim(recv, "(*)")` in `LookupFromFuncForPC`). -/
def inRecvCutset (c : Char) : Bool :=
  c == '(' || c == '*' || c == ')'

/-! ## Data produced by the commentof indexer (external library)

`github.com/podhmo/commentof/collect` is an external dependency; only the
shapes of its records matter to `lookup.go`.  Identifier keys for the
param/result maps are modelled as `Nat` (the library's string keys are
opaque to `lookup.go`, which only moves them from the ordered name list
into the map). -/

/-- `collect.Field`: one parameter, result or struct field record. -/
structure CollectField where
  Name : String
  Doc : String
  Comment : String
deriving DecidableEq, Repr

/-- `collect.Func`: one function or method record. -/
structure CollectFunc where
  Name : String
  Doc : String
  ParamNames : List Nat
  Params : List (Nat × CollectField)
  ReturnNames : List Nat
  Returns : List (Nat × CollectField)
deriving DecidableEq, Repr

/-- `collect.Object`: one struct/type record. -/
structure CollectObject where
  Name : String
  Doc : String
  Comment : String
  Fields : List CollectField
  Methods : List (String × CollectFunc)
deriving DecidableEq, Repr

/-- `collect.File`: the index built by `commentof.File` for one file. -/
structure FileIndex where
  Types : List (String × CollectObject)
  Functions : List (String × CollectFunc)
deriving DecidableEq, Repr

/-- `collect.Package`: the index built by `commentof.Package`. -/
structure PackageIndex where
  Types : List (String × CollectObject)
deriving DecidableEq, Repr

/-! ## The Lookup session and its result types (`metadata/lookup.go`) -/

/-- `metadata.Lookup` (the `Fset` and accessor handles are environment,
not data). -/
structure Lookup where
  IncludeGoTestFiles : Bool
  IncludeUnexported : Bool
deriving DecidableEq, Repr

/-- `metadata.NewLookup`: both policy flags default to `false`. -/
def NewLookup : Lookup :=
  { IncludeGoTestFiles := false, IncludeUnexported := false }

/-- `metadata.Func`: the function-metadata result. -/
structure Func where
  pc : Nat
  Raw : CollectFunc
  Recv : String
deriving DecidableEq, Repr

/-- `(*Func).Name`. -/
def Func.Name (m : Func) : String := m.Raw.Name

/-- `(*Func).Doc`. -/
def Func.Doc (m : Func) : String := goTrimSpace m.Raw.Doc

/-- `(*Func).Args`: `names[i] = m.Raw.Params[id].Name` for each `id` in
`m.Raw.ParamNames`, in order.  (Go would panic on a key missing from the
map; the indexer never produces one, and the model defaults to an empty
record.) -/
def Func.Args (m : Func) : List String :=
  m.Raw.ParamNames.map fun id => ((m.Raw.Params.lookup id).getD ⟨"", "", ""⟩).Name

/-- `(*Func).Returns`: same as `Args` over `ReturnNames`/`Returns`. -/
def Func.Returns (m : Func) : List String :=
  m.Raw.ReturnNames.map fun id => ((m.Raw.Returns.lookup id).getD ⟨"", "", ""⟩).Name

/-- `metadata.Struct`: the struct-metadata result. -/
structure Struct where
  Raw : CollectObject
deriving DecidableEq, Repr

/-- `(*Struct).Name`. -/
def Struct.Name (s : Struct) : String := s.Raw.Name

/-- `(*Struct).Doc`: `doc := Raw.Doc; if doc == "" { doc = Raw.Comment };
return strings.TrimSpace(doc)`. -/
def Struct.Doc (s : Struct) : String :=
  goTrimSpace (if s.Raw.Doc = "" then s.Raw.Comment else s.Raw.Doc)

/-- `(*Struct).FieldComments`: per field, the same doc-then-trailing
selection, trimmed.  Go accumulates a map keyed by field name; it is
modelled as the association list in field order. -/
def Struct.FieldComments (s : Struct) : List (String × String) :=
  s.Raw.Fields.map fun f =>
    (f.Name, goTrimSpace (if f.Doc = "" then f.Comment else f.Doc))

/-! ## Function lookup (`(*Lookup).LookupFromFuncForPC`) -/

/-- The failure modes of `LookupFromFuncForPC`.  In Go these are distinct
error values: a bare `fmt.Errorf("cannot find runtime.Func")`
(`notResolvable`), the `parser.ParseFile` error returned when the tree is
nil (`parseFailed`), the `commentof.File` error (`collectFailed`), a bare
`fmt.Errorf("unexpected func: %v", ...)` (`unexpectedSymbolForm`), and
errors wrapping `ErrNotFound` (`notFound`). -/
inductive FuncErr where
  | notResolvable
  | parseFailed (err : Option String)
  | collectFailed (err : String)
  | unexpectedSymbolForm (symbol : String)
  | notFound (symbol : String)
deriving DecidableEq, Repr

/-- The demangling step of `LookupFromFuncForPC` (lines 103-117):
split the runtime symbol on `/`, take the last segment, cut it at the
first `.` into package and rest (failing with `unexpectedSymbolForm`
when there is no `.`), then cut the rest at the next `.`: with a second
`.` the symbol is a method and the receiver is trimmed of `"(*)"`;
otherwise it is a plain function with empty receiver.
Returns `(pkgname, recv, name, isMethod)`. -/
def demangle (symbol : String) : Except FuncErr (String × String × String × Bool) :=
  let parts := goSplit '/' symbol.data
  let last := parts.getLastD []
  let c1 := goCut '.' last
  if c1.2.2 then
    let c2 := goCut '.' c1.2.1
    if c2.2.2 then
      .ok (String.mk c1.1, String.mk (goTrim inRecvCutset c2.1), String.mk c2.2.1, true)
    else
      .ok (String.mk c1.1, "", String.mk c2.1, false)
  else
    .error (.unexpectedSymbolForm symbol)

/-- The record-selection step of `LookupFromFuncForPC` (lines 103-136):
demangle the symbol, then look up either `p.Types[recv].Methods[name]`
or `p.Functions[name]`. -/
def lookupRecord (p : FileIndex) (symbol : String) (pc : Nat) : Except FuncErr Func :=
  match demangle symbol with
  | .error e => .error e
  | .ok (_pkgname, recv, name, isMethod) =>
    if isMethod then
      match p.Types.lookup recv with
      | none => .error (.notFound symbol)
      | some ob =>
        match ob.Methods.lookup name with
        | none => .error (.notFound symbol)
        | some result => .ok ⟨pc, result, recv⟩
    else
      match p.Functions.lookup name with
      | none => .error (.notFound symbol)
      | some result => .ok ⟨pc, result, ""⟩

/-- The runtime's view of one function: `runtime.Func`'s name and the
file reported by `FileLine(Entry())`. -/
structure RuntimeFunc where
  name : String
  filename : String
deriving DecidableEq, Repr

/-- An opaque handle for a parsed `ast.File`. -/
structure AstFile where
  tag : Nat
deriving DecidableEq, Repr

/-- The external collaborators of `LookupFromFuncForPC`:
`unsaferuntime.Accessor.FuncForPC`, `parser.ParseFile` (tree and error,
either of which may be absent), and `commentof.File` (which receives the
`IncludeUnexported` flag). -/
structure FuncEnv where
  funcForPC : Nat → Option RuntimeFunc
  parseFile : String → Option AstFile × Option String
  collectFile : Bool → AstFile → Except String FileIndex

/-- `(*Lookup).LookupFromFuncForPC`: resolve the pc to a `runtime.Func`
(failing with `notResolvable` when there is none), parse the owning file
(failing only when the returned tree is nil, with the parser's error),
index it with `commentof.File`, then select the record. -/
def Lookup.LookupFromFuncForPC (l : Lookup) (env : FuncEnv) (pc : Nat) :
    Except FuncErr Func :=
  match env.funcForPC pc with
  | none => .error .notResolvable
  | some rfunc =>
    match env.parseFile rfunc.filename with
    | (none, err) => .error (.parseFailed err)
    | (some f, _) =>
      match env.collectFile l.IncludeUnexported f with
      | .error err => .error (.collectFailed err)
      | .ok p => lookupRecord p rfunc.name pc

/-! ## Struct lookup (`(*Lookup).LookupFromStructForReflectType`) -/

/-- The failure modes of `LookupFromStructForReflectType`: `ErrNotFound`
(both the bare sentinel for a failed `debug.ReadBuildInfo` and the
wrapping `lookup metadata of ... is failed` error), a `packages.Load`
error, and a `commentof.Package` error. -/
inductive StructErr where
  | notFound
  | loadFailed (err : String)
  | collectFailed (err : String)
deriving DecidableEq, Repr

/-- One element of the `packages.Load` result: its error list (abstracted
to whether `len(pkg.Errors) > 0`), its `PkgPath`, and the result of
running `commentof.Package` over its syntax trees under a given
`IncludeUnexported` flag. -/
structure LoadedPackage where
  hasErrors : Bool
  PkgPath : String
  collectPackage : Bool → Except String PackageIndex

/-- The external collaborators of `LookupFromStructForReflectType`:
`debug.ReadBuildInfo` (the main module path, `none` when unavailable)
and `packages.Load`. -/
structure StructEnv where
  buildInfoPath : Option String
  load : String → Except String (List LoadedPackage)

/-- The candidate loop of `LookupFromStructForReflectType`
(lines 200-227): skip packages with errors, skip packages whose
`PkgPath` differs from the requested path, fail on a `commentof.Package`
error, return the first candidate whose indexed `Types` contain the
type name, and fall through to `ErrNotFound`. -/
def lookupStructLoop (l : Lookup) (obname pkgpath : String) :
    List LoadedPackage → Except StructErr Struct
  | [] => .error .notFound
  | pkg :: rest =>
    if pkg.hasErrors then lookupStructLoop l obname pkgpath rest
    else if pkg.PkgPath ≠ pkgpath then lookupStructLoop l obname pkgpath rest
    else
      match pkg.collectPackage l.IncludeUnexported with
      | .error e => .error (.collectFailed e)
      | .ok p =>
        match p.Types.lookup obname with
        | none => lookupStructLoop l obname pkgpath rest
        | some result => .ok ⟨result⟩

/-- The `"main"` sentinel rule (lines 175-182): a reflected package path
of exactly `"main"` is replaced by the build-info module path, failing
with `ErrNotFound` when `debug.ReadBuildInfo` is unavailable; any other
path is used as is. -/
def resolvePkgPath (buildInfoPath : Option String) (pkgpath : String) :
    Option String :=
  if pkgpath = "main" then buildInfoPath else some pkgpath

/-- `LookupFromStructForReflectType` after path resolution:
`packages.Load` on the resolved path, then the candidate loop. -/
def Lookup.lookupResolved (l : Lookup) (env : StructEnv) (obname pkgpath : String) :
    Except StructErr Struct :=
  match env.load pkgpath with
  | .error e => .error (.loadFailed e)
  | .ok pkgs => lookupStructLoop l obname pkgpath pkgs

/-- `(*Lookup).LookupFromStructForReflectType` for a reflected type with
name `obname` and declaring package path `pkgpath`. -/
def Lookup.LookupFromStructForReflectType (l : Lookup) (env : StructEnv)
    (obname pkgpath : String) : Except StructErr Struct :=
  match resolvePkgPath env.buildInfoPath pkgpath with
  | none => .error .notFound
  | some real => l.lookupResolved env obname real

/-! ## `api.go`: `Config` and the lookup-construction step of `Extract` -/

/-- `reflectshape.Config` (the extractor and file set are omitted; the
`lookup` field is the part `Extract` initializes). -/
structure Config where
  SkipComments : Bool
  FillArgNames : Bool
  FillReturnNames : Bool
  IncludeGoTestFiles : Bool
  DocTruncationSize : Int
  lookup : Option Lookup
deriving DecidableEq, Repr

/-- The package-level `DocTruncationSize` default. -/
def DocTruncationSizeDefault : Int := 10

/-- The state initialization at the top of `(*Config).Extract`
(lines 26-34): fill the truncation-size default, and when no lookup
exists yet and comments are not skipped, build one with
`NewLookup`, copying `IncludeGoTestFiles` and setting
`IncludeUnexported` to `true`. -/
def Config.extractSetup (c : Config) : Config :=
  let c1 : Config :=
    if c.DocTruncationSize = 0 then
      { c with DocTruncationSize := DocTruncationSizeDefault }
    else c
  if c1.lookup.isNone && !c1.SkipComments then
    { c1 with
      lookup := some { NewLookup with
        IncludeGoTestFiles := c1.IncludeGoTestFiles
        IncludeUnexported := true } }
  else c1

/-! ## The AST Doc Indexer, modelled from the spec

The indexer itself lives in the external `commentof` library, outside
this repository's sources; only its output shape is consumed by
`lookup.go`. -/

/-- Modelled from the spec: the AST Doc Indexer (the `commentof` library,
not under this repository's sources) records, per declared
function/method, the "ordered parameter/result identifier lists", "length
always equal to declared parameter count, with empty-string placeholders
for unnamed parameters".  A declared parameter (or result) list is given
as `List (Option String)`, `none` standing for an unnamed position; the
indexer keys each position by its index, listing the keys in declaration
order. -/
def indexIdents (decl : List (Option String)) : List Nat × List (Nat × CollectField) :=
  (List.range decl.length,
   (List.range decl.length).zip (decl.map fun o => ⟨o.getD "", "", ""⟩))

/-- Modelled from the spec: the `collect.Func` record the AST Doc Indexer
produces for a declaration with the given parameter and result lists. -/
def collectFuncOfDecl (name doc : String) (params results : List (Option String)) :
    CollectFunc :=
  { Name := name, Doc := doc,
    ParamNames := (indexIdents params).1, Params := (indexIdents params).2,
    ReturnNames := (indexIdents results).1, Returns := (indexIdents results).2 }

/-! ## Concrete data used by the closed witness statements -/

/-- A sample method record. -/
def sampleFunc : CollectFunc :=
  { Name := "M", Doc := "M does things.",
    ParamNames := [], Params := [], ReturnNames := [], Returns := [] }

/-- A sample method record under the synthetic method-value name. -/
def sampleFuncFm : CollectFunc :=
  { sampleFunc with Name := "M-fm" }

/-- A sample file index: type `T` with methods `M` and `M-fm`, and a
top-level function `Add`. -/
def sampleIndex : FileIndex :=
  { Types := [("T", { Name := "T", Doc := "", Comment := "",
                      Fields := [],
                      Methods := [("M", sampleFunc), ("M-fm", sampleFuncFm)] })],
    Functions := [("Add", { sampleFunc with Name := "Add" })] }

/-- A sample struct record: doc, trailing comments on fields. -/
def sampleObject : CollectObject :=
  { Name := "User", Doc := "\nUser is the object for User.\n", Comment := "trailing",
    Fields := [⟨"Name", " name of User.\n", "ignored"⟩, ⟨"Age", "", " age of User."⟩],
    Methods := [] }

/-- A sample loaded package indexing `sampleObject` under `"User"`. -/
def samplePackage : LoadedPackage :=
  { hasErrors := false, PkgPath := "example.com/app",
    collectPackage := fun _ => .ok { Types := [("User", sampleObject)] } }

/-- A sample environment for struct lookups. -/
def sampleStructEnv : StructEnv :=
  { buildInfoPath := some "example.com/app",
    load := fun path =>
      if path = "example.com/app" then .ok [samplePackage] else .ok [] }

/-- A sample environment for function lookups, resolving pc `7` to the
method-value symbol of `T.M` and pc `8` to a dotless symbol. -/
def sampleFuncEnv : FuncEnv :=
  { funcForPC := fun pc =>
      if pc = 7 then some ⟨"example.com/pkg.(*T).M-fm", "file.go"⟩
      else if pc = 8 then some ⟨"nodotsymbol", "file.go"⟩
      else none,
    parseFile := fun _ => (some ⟨0⟩, some "file.go:3:1: expected declaration"),
    collectFile := fun _ _ => .ok sampleIndex }

/-! ## Symbol builders for stating demangling properties -/

/-- A runtime method symbol `dir/pkg.recvPart.name` built from its
character-level pieces. -/
def methodSymbol (dir pkg recvPart name : List Char) : String :=
  String.mk (dir ++ '/' :: (pkg ++ '.' :: (recvPart ++ '.' :: name)))

/-- A runtime plain-function symbol `dir/pkg.name`. -/
def funcSymbol (dir pkg name : List Char) : String :=
  String.mk (dir ++ '/' :: (pkg ++ '.' :: name))

/-- The pointer-receiver decoration `(*recv)` around a receiver name. -/
def ptrRecv (recv : List Char) : List Char :=
  '(' :: '*' :: (recv ++ [')'])

/-! ## Helper lemmas about the Go string primitives -/

theorem goSplit_ne_nil (sep : Char) (s : List Char) : goSplit sep s ≠ [] := by
  induction s with
  | nil => simp [goSplit]
  | cons c cs ih =>
    simp only [goSplit]
    split
    · simp
    · cases h : goSplit sep cs <;> simp

theorem goSplit_of_not_mem {sep : Char} {s : List Char} (h : sep ∉ s) :
    goSplit sep s = [s] := by
  induction s with
  | nil => rfl
  | cons c cs ih =>
    have hc : ¬c = sep := by rintro rfl; exact h (List.mem_cons_self _ _)
    have hcs : sep ∉ cs := fun hm => h (List.mem_cons_of_mem _ hm)
    simp [goSplit, hc, ih hcs]

theorem two_le_length_goSplit {sep : Char} {s : List Char} (h : sep ∈ s) :
    2 ≤ (goSplit sep s).length := by
  induction s with
  | nil => simp at h
  | cons c cs ih =>
    simp only [goSplit]
    by_cases hc : c = sep
    · rw [if_pos hc]
      have h1 : 1 ≤ (goSplit sep cs).length := by
        cases hg : goSplit sep cs with
        | nil => exact absurd hg (goSplit_ne_nil sep cs)
        | cons a t => simp
      simp only [List.length_cons]
      omega
    · have hm : sep ∈ cs := by
        rcases List.mem_cons.mp h with h1 | h1
        · exact absurd h1.symm hc
        · exact h1
      rw [if_neg hc]
      cases hg : goSplit sep cs with
      | nil => exact absurd hg (goSplit_ne_nil sep cs)
      | cons a t =>
        have := ih hm
        rw [hg] at this
        simpa using this

theorem getLastD_goSplit_append {sep : Char} (dir : List Char) {tail : List Char}
    (h : sep ∉ tail) :
    (goSplit sep (dir ++ sep :: tail)).getLastD [] = tail := by
  induction dir with
  | nil =>
    simp only [List.nil_append, goSplit, if_pos rfl, goSplit_of_not_mem h]
    rfl
  | cons x dir' ih =>
    simp only [List.cons_append, goSplit]
    by_cases hx : x = sep
    · rw [if_pos hx, List.getLastD_cons]
      exact ih
    · rw [if_neg hx]
      have hmem : sep ∈ dir' ++ sep :: tail :=
        List.mem_append_right _ (List.mem_cons_self _ _)
      have hlen := two_le_length_goSplit hmem
      cases hg : goSplit sep (dir' ++ sep :: tail) with
      | nil => exact absurd hg (goSplit_ne_nil sep _)
      | cons a t =>
        cases t with
        | nil => rw [hg] at hlen; simp at hlen
        | cons b t' =>
          rw [hg] at ih
          rw [List.getLastD_cons, List.getLastD_cons] at ih ⊢
          exact ih

theorem goCut_append {sep : Char} {pre : List Char} (post : List Char)
    (h : sep ∉ pre) : goCut sep (pre ++ sep :: post) = (pre, post, true) := by
  induction pre with
  | nil => simp [goCut]
  | cons c pre' ih =>
    have hc : ¬c = sep := by rintro rfl; exact h (List.mem_cons_self _ _)
    have hpre : sep ∉ pre' := fun hm => h (List.mem_cons_of_mem _ hm)
    simp [goCut, hc, ih hpre]

theorem goCut_of_not_mem {sep : Char} {s : List Char} (h : sep ∉ s) :
    goCut sep s = (s, [], false) := by
  induction s with
  | nil => rfl
  | cons c cs ih =>
    have hc : ¬c = sep := by rintro rfl; exact h (List.mem_cons_self _ _)
    have hcs : sep ∉ cs := fun hm => h (List.mem_cons_of_mem _ hm)
    simp [goCut, hc, ih hcs]

theorem dropWhile_eq_self_of {p : Char → Bool} {s : List Char}
    (h : ∀ c ∈ s, p c = false) : s.dropWhile p = s := by
  cases s with
  | nil => rfl
  | cons c cs => simp [List.dropWhile_cons, h c (List.mem_cons_self _ _)]

theorem goTrim_eq_self {p : Char → Bool} {s : List Char}
    (h : ∀ c ∈ s, p c = false) : goTrim p s = s := by
  unfold goTrim
  rw [dropWhile_eq_self_of h,
    dropWhile_eq_self_of (fun c hc => h c (List.mem_reverse.mp hc)),
    List.reverse_reverse]

theorem goTrim_pointer_receiver {s : List Char}
    (h : ∀ c ∈ s, inRecvCutset c = false) (hne : s ≠ []) :
    goTrim inRecvCutset ('(' :: '*' :: (s ++ [')'])) = s := by
  obtain ⟨c, cs, rfl⟩ := List.exists_cons_of_ne_nil hne
  have hc : inRecvCutset c = false := h c (List.mem_cons_self _ _)
  unfold goTrim
  have h1 : List.dropWhile inRecvCutset ('(' :: '*' :: ((c :: cs) ++ [')']))
      = (c :: cs) ++ [')'] := by
    rw [List.dropWhile_cons, if_pos (by decide), List.dropWhile_cons,
      if_pos (by decide), List.cons_append, List.dropWhile_cons,
      if_neg (by simp [hc])]
  rw [h1]
  have h2 : ((c :: cs) ++ [')']).reverse = ')' :: (c :: cs).reverse := by
    rw [List.reverse_append]
    rfl
  rw [h2, List.dropWhile_cons, if_pos (by decide),
    dropWhile_eq_self_of (fun d hd => h d (List.mem_reverse.mp hd)),
    List.reverse_reverse]

theorem goTrim_ptrRecv {s : List Char}
    (h : ∀ c ∈ s, inRecvCutset c = false) (hne : s ≠ []) :
    goTrim inRecvCutset (ptrRecv s) = s :=
  goTrim_pointer_receiver h hne

theorem map_lookup_zip_range' (d : CollectField) :
    ∀ (l : List CollectField) (s : Nat),
      (List.range' s l.length).map
        (fun id => (((List.range' s l.length).zip l).lookup id).getD d) = l := by
  intro l
  induction l with
  | nil => intro s; simp
  | cons c cs ih =>
    intro s
    rw [List.length_cons, List.range'_succ, List.zip_cons_cons, List.map_cons]
    have hhead : ((((s, c) :: (List.range' (s + 1) cs.length).zip cs).lookup s).getD d) = c := by
      simp [List.lookup_cons]
    rw [hhead]
    have htail : (List.range' (s + 1) cs.length).map
        (fun id => ((((s, c) :: (List.range' (s + 1) cs.length).zip cs).lookup id).getD d))
        = (List.range' (s + 1) cs.length).map
        (fun id => ((((List.range' (s + 1) cs.length).zip cs).lookup id).getD d)) := by
      apply List.map_congr_left
      intro a ha
      have hne : (a == s) = false := by
        have := (List.mem_range'_1.mp ha).1
        simp only [beq_eq_false_iff_ne, ne_eq]
        omega
      simp [List.lookup_cons, hne]
    rw [htail, ih (s + 1)]

theorem demangle_methodSymbol (dir : List Char) {pkg recvPart : List Char}
    (name : List Char)
    (hpkg_slash : '/' ∉ pkg) (hpkg_dot : '.' ∉ pkg)
    (hrecv_slash : '/' ∉ recvPart) (hrecv_dot : '.' ∉ recvPart)
    (hname_slash : '/' ∉ name) :
    demangle (methodSymbol dir pkg recvPart name)
      = .ok (String.mk pkg, String.mk (goTrim inRecvCutset recvPart),
             String.mk name, true) := by
  have htail : '/' ∉ pkg ++ '.' :: (recvPart ++ '.' :: name) := by
    intro hmem
    rcases List.mem_append.mp hmem with h1 | h1
    · exact hpkg_slash h1
    rcases List.mem_cons.mp h1 with h2 | h2
    · exact absurd h2 (by decide)
    rcases List.mem_append.mp h2 with h3 | h3
    · exact hrecv_slash h3
    rcases List.mem_cons.mp h3 with h4 | h4
    · exact absurd h4 (by decide)
    · exact hname_slash h4
  simp only [demangle, methodSymbol]
  rw [getLastD_goSplit_append dir htail, goCut_append _ hpkg_dot,
    goCut_append _ hrecv_dot]
  simp

theorem demangle_funcSymbol (dir : List Char) {pkg name : List Char}
    (hpkg_slash : '/' ∉ pkg) (hpkg_dot : '.' ∉ pkg)
    (hname_slash : '/' ∉ name) (hname_dot : '.' ∉ name) :
    demangle (funcSymbol dir pkg name)
      = .ok (String.mk pkg, "", String.mk name, false) := by
  have htail : '/' ∉ pkg ++ '.' :: name := by
    intro hmem
    rcases List.mem_append.mp hmem with h1 | h1
    · exact hpkg_slash h1
    rcases List.mem_cons.mp h1 with h2 | h2
    · exact absurd h2 (by decide)
    · exact hname_slash h2
  simp only [demangle, funcSymbol]
  rw [getLastD_goSplit_append dir htail, goCut_append _ hpkg_dot,
    goCut_of_not_mem hname_dot]
  simp

theorem map_ident_names (decl : List (Option String)) :
    ((indexIdents decl).1).map
        (fun id => (((indexIdents decl).2).lookup id).getD ⟨"", "", ""⟩)
      = decl.map (fun o => ⟨o.getD "", "", ""⟩) := by
  unfold indexIdents
  have h := map_lookup_zip_range' ⟨"", "", ""⟩
    (decl.map fun o => ⟨o.getD "", "", ""⟩) 0
  rw [List.length_map] at h
  rw [List.range_eq_range']
  exact h

/-- Claim C1: for every function with N declared parameters, `Args()`
returns a list of length exactly N whose entries are the parameter names
in declaration order, with an empty string at each unnamed position
(never omitted); `Returns()` satisfies the same property for the declared
results.  Stated over the indexer record of a declaration whose
parameter/result lists are given with `none` for unnamed positions. -/
theorem args_returns_follow_declaration (name doc : String)
    (params results : List (Option String)) (pc : Nat) (recv : String) :
    (Func.mk pc (collectFuncOfDecl name doc params results) recv).Args.length
        = params.length ∧
    (Func.mk pc (collectFuncOfDecl name doc params results) recv).Args
        = params.map (fun o => o.getD "") ∧
    (Func.mk pc (collectFuncOfDecl name doc params results) recv).Returns.length
        = results.length ∧
    (Func.mk pc (collectFuncOfDecl name doc params results) recv).Returns
        = results.map (fun o => o.getD "") := by
  have hA : (Func.mk pc (collectFuncOfDecl name doc params results) recv).Args
      = params.map (fun o => o.getD "") := by
    show ((indexIdents params).1).map
        (fun id => ((((indexIdents params).2).lookup id).getD ⟨"", "", ""⟩).Name)
      = params.map (fun o => o.getD "")
    have h1 := congrArg (List.map CollectField.Name) (map_ident_names params)
    rw [List.map_map, List.map_map] at h1
    exact h1
  have hR : (Func.mk pc (collectFuncOfDecl name doc params results) recv).Returns
      = results.map (fun o => o.getD "") := by
    show ((indexIdents results).1).map
        (fun id => ((((indexIdents results).2).lookup id).getD ⟨"", "", ""⟩).Name)
      = results.map (fun o => o.getD "")
    have h1 := congrArg (List.map CollectField.Name) (map_ident_names results)
    rw [List.map_map, List.map_map] at h1
    exact h1
  exact ⟨by rw [hA, List.length_map], hA, by rw [hR, List.length_map], hR⟩

/-- Claim C2: for every struct declaration and every struct field, the
comment selection is: a non-empty leading doc comment is returned trimmed
and the trailing comment is ignored regardless of content; otherwise a
trailing comment is returned trimmed; otherwise the result is the empty
string.  This holds for `Struct.Doc` and for every entry of
`Struct.FieldComments`. -/
theorem struct_doc_precedence (o : CollectObject) :
    (o.Doc ≠ "" → (Struct.mk o).Doc = goTrimSpace o.Doc) ∧
    (o.Doc ≠ "" → ∀ c : String,
      (Struct.mk { o with Comment := c }).Doc = (Struct.mk o).Doc) ∧
    (o.Doc = "" → o.Comment ≠ "" → (Struct.mk o).Doc = goTrimSpace o.Comment) ∧
    (o.Doc = "" → o.Comment = "" → (Struct.mk o).Doc = "") ∧
    (∀ f ∈ o.Fields,
      (f.Name, if f.Doc ≠ "" then goTrimSpace f.Doc else goTrimSpace f.Comment)
        ∈ (Struct.mk o).FieldComments) ∧
    (∀ e ∈ (Struct.mk o).FieldComments, ∃ f ∈ o.Fields,
      e = (f.Name,
        if f.Doc ≠ "" then goTrimSpace f.Doc else goTrimSpace f.Comment)) := by
  refine ⟨?_, ?_, ?_, ?_, ?_, ?_⟩
  · intro h; simp [Struct.Doc, h]
  · intro h c; simp [Struct.Doc, h]
  · intro h1 h2; simp [Struct.Doc, h1]
  · intro h1 h2; simp only [Struct.Doc, h1, h2, if_pos rfl]; rfl
  · intro f hf
    refine List.mem_map.mpr ⟨f, hf, ?_⟩
    by_cases hd : f.Doc = "" <;> simp [hd]
  · intro e he
    obtain ⟨f, hf, heq⟩ := List.mem_map.mp he
    refine ⟨f, hf, ?_⟩
    rw [← heq]
    by_cases hd : f.Doc = "" <;> simp [hd]

/-- Witness for C2 at a concrete struct record: doc comment wins for the
declaration, a field doc comment wins over its trailing comment, and a
field with only a trailing comment falls back to it, all trimmed. -/
theorem struct_doc_precedence_witness :
    (Struct.mk sampleObject).Doc = "User is the object for User." ∧
    ("Name", "name of User.") ∈ (Struct.mk sampleObject).FieldComments ∧
    ("Age", "age of User.") ∈ (Struct.mk sampleObject).FieldComments := by
  refine ⟨?_, ?_, ?_⟩
  · have h := (struct_doc_precedence sampleObject).1 (by decide)
    rw [h]
    decide
  · have h := (struct_doc_precedence sampleObject).2.2.2.2.1
      ⟨"Name", " name of User.\n", "ignored"⟩ (by decide)
    have e1 : (("Name",
        if (" name of User.\n" : String) ≠ "" then goTrimSpace " name of User.\n"
        else goTrimSpace "ignored") : String × String)
        = ("Name", "name of User.") := by decide
    exact e1 ▸ h
  · have h := (struct_doc_precedence sampleObject).2.2.2.2.1
      ⟨"Age", "", " age of User."⟩ (by decide)
    have e1 : (("Age",
        if ("" : String) ≠ "" then goTrimSpace ""
        else goTrimSpace " age of User.") : String × String)
        = ("Age", "age of User.") := by decide
    exact e1 ▸ h

/-- Claim C4 counterexample: the demangler does not recognize the
method-value suffix `-fm` as denoting a non-method.  On the concrete
symbol `example.com/pkg.(*T).M-fm` it reports a method (`isMethod =
true`) whose name keeps the synthetic suffix, and the record selection
does look the symbol up as a method record (succeeding when the index
happens to contain the suffixed key, and failing with `notFound` —
not a function lookup — otherwise). -/
theorem method_value_suffix_is_method_lookup :
    demangle "example.com/pkg.(*T).M-fm" = .ok ("pkg", "T", "M-fm", true) ∧
    lookupRecord sampleIndex "example.com/pkg.(*T).M-fm" 7
      = .ok ⟨7, sampleFuncFm, "T"⟩ := by
  constructor
  · rfl
  · rfl

/-- Claim C4 (amended): the demangling step splits the runtime symbol on
path separators, isolates the final package.name segment, and strips
pointer-receiver markers from the receiver part when present; synthetic
suffixes such as `-fm` are not specially recognized — they remain part of
the looked-up method name, so a method-value symbol is treated as a
method, not as a non-method. -/
theorem demangle_segments_and_markers
    (dir pkg recv base name : List Char)
    (hpkg_slash : '/' ∉ pkg) (hpkg_dot : '.' ∉ pkg)
    (hrecv_slash : '/' ∉ recv) (hrecv_dot : '.' ∉ recv)
    (hrecv_cut : ∀ c ∈ recv, inRecvCutset c = false) (hrecv_ne : recv ≠ [])
    (hname_slash : '/' ∉ name) (hbase_slash : '/' ∉ base) :
    demangle (methodSymbol dir pkg (ptrRecv recv) name)
      = .ok (String.mk pkg, String.mk recv, String.mk name, true) ∧
    demangle (methodSymbol dir pkg (ptrRecv recv) (base ++ ['-', 'f', 'm']))
      = .ok (String.mk pkg, String.mk recv,
             String.mk (base ++ ['-', 'f', 'm']), true) ∧
    (∀ fname : List Char, '/' ∉ fname → '.' ∉ fname →
      demangle (funcSymbol dir pkg fname)
        = .ok (String.mk pkg, "", String.mk fname, false)) := by
  have hps : '/' ∉ ptrRecv recv := by
    simp only [ptrRecv, List.mem_cons, List.mem_append, List.mem_singleton]
    push_neg
    exact ⟨by decide, by decide, hrecv_slash, by decide⟩
  have hpd : '.' ∉ ptrRecv recv := by
    simp only [ptrRecv, List.mem_cons, List.mem_append, List.mem_singleton]
    push_neg
    exact ⟨by decide, by decide, hrecv_dot, by decide⟩
  have hfm : '/' ∉ base ++ ['-', 'f', 'm'] := by
    intro hm
    rcases List.mem_append.mp hm with h1 | h1
    · exact hbase_slash h1
    · simp at h1
  refine ⟨?_, ?_, ?_⟩
  · rw [demangle_methodSymbol dir name hpkg_slash hpkg_dot hps hpd hname_slash,
      goTrim_ptrRecv hrecv_cut hrecv_ne]
  · rw [demangle_methodSymbol dir _ hpkg_slash hpkg_dot hps hpd hfm,
      goTrim_ptrRecv hrecv_cut hrecv_ne]
  · intro fname h1 h2
    exact demangle_funcSymbol dir hpkg_slash hpkg_dot h1 h2

/-- Witness for the amended C4 at a concrete symbol. -/
theorem demangle_segments_and_markers_witness :
    demangle (methodSymbol "example.com".data "pkg".data
        (ptrRecv "T".data) "M".data)
      = .ok ("pkg", "T", "M", true) ∧
    demangle (methodSymbol "example.com".data "pkg".data
        (ptrRecv "T".data) ("M".data ++ ['-', 'f', 'm']))
      = .ok ("pkg", "T", "M-fm", true) := by
  have h := demangle_segments_and_markers "example.com".data "pkg".data
    "T".data "M".data "M".data (by decide) (by decide) (by decide) (by decide)
    (by decide) (by decide) (by decide) (by decide)
  exact ⟨h.1, h.2.1⟩

/-- Claim C5: for every type T and method name M, looking up the method
with a pointer-receiver symbol `(*T)` and with a value-receiver symbol
`T` selects the same declaration record, because the receiver markers are
stripped before the record is selected. -/
theorem receiver_markers_irrelevant
    (p : FileIndex) (pc : Nat) (dir pkg recv name : List Char)
    (hpkg_slash : '/' ∉ pkg) (hpkg_dot : '.' ∉ pkg)
    (hrecv_slash : '/' ∉ recv) (hrecv_dot : '.' ∉ recv)
    (hrecv_cut : ∀ c ∈ recv, inRecvCutset c = false) (hrecv_ne : recv ≠ [])
    (hname_slash : '/' ∉ name) :
    ∀ fn : Func,
      lookupRecord p (methodSymbol dir pkg (ptrRecv recv) name) pc = .ok fn ↔
      lookupRecord p (methodSymbol dir pkg recv name) pc = .ok fn := by
  have hps : '/' ∉ ptrRecv recv := by
    simp only [ptrRecv, List.mem_cons, List.mem_append, List.mem_singleton]
    push_neg
    exact ⟨by decide, by decide, hrecv_slash, by decide⟩
  have hpd : '.' ∉ ptrRecv recv := by
    simp only [ptrRecv, List.mem_cons, List.mem_append, List.mem_singleton]
    push_neg
    exact ⟨by decide, by decide, hrecv_dot, by decide⟩
  intro fn
  unfold lookupRecord
  rw [demangle_methodSymbol dir name hpkg_slash hpkg_dot hps hpd hname_slash,
    goTrim_ptrRecv hrecv_cut hrecv_ne,
    demangle_methodSymbol dir name hpkg_slash hpkg_dot hrecv_slash hrecv_dot
      hname_slash, goTrim_eq_self hrecv_cut]
  cases h1 : p.Types.lookup (String.mk recv) with
  | none => simp [h1]
  | some ob =>
    cases h2 : ob.Methods.lookup (String.mk name) with
    | none => simp [h1, h2]
    | some r => simp [h1, h2]

/-- Witness for C5 at a concrete index and symbol pair. -/
theorem receiver_markers_irrelevant_witness :
    (lookupRecord sampleIndex (methodSymbol "example.com".data "pkg".data
        (ptrRecv "T".data) "M".data) 7 = .ok ⟨7, sampleFunc, "T"⟩ ↔
     lookupRecord sampleIndex (methodSymbol "example.com".data "pkg".data
        "T".data "M".data) 7 = .ok ⟨7, sampleFunc, "T"⟩) ∧
    lookupRecord sampleIndex (methodSymbol "example.com".data "pkg".data
        "T".data "M".data) 7 = .ok ⟨7, sampleFunc, "T"⟩ := by
  constructor
  · exact receiver_markers_irrelevant sampleIndex 7 "example.com".data
      "pkg".data "T".data "M".data (by decide) (by decide) (by decide)
      (by decide) (by decide) (by decide) (by decide) ⟨7, sampleFunc, "T"⟩
  · rfl

/-- Claim C7: when the runtime has no symbol-table entry for the entry
address, the lookup fails with `notResolvable`, an error distinguishable
from `notFound` and from `unexpectedSymbolForm`; no parsing is attempted
(the result does not depend on the parser or indexer, which the
quantification over `env` makes explicit). -/
theorem missing_symbol_not_resolvable (l : Lookup) (env : FuncEnv) (pc : Nat)
    (h : env.funcForPC pc = none) :
    l.LookupFromFuncForPC env pc = .error .notResolvable ∧
    (∀ s, FuncErr.notResolvable ≠ FuncErr.notFound s) ∧
    (∀ s, FuncErr.notResolvable ≠ FuncErr.unexpectedSymbolForm s) := by
  refine ⟨?_, fun s => by simp, fun s => by simp⟩
  unfold Lookup.LookupFromFuncForPC
  rw [h]

/-- Witness for C7: an environment with no symbol entry for address 3. -/
theorem missing_symbol_not_resolvable_witness :
    Lookup.LookupFromFuncForPC NewLookup
      ⟨fun _ => none, fun _ => (some ⟨0⟩, none), fun _ _ => .ok sampleIndex⟩ 3
      = .error .notResolvable :=
  (missing_symbol_not_resolvable NewLookup
    ⟨fun _ => none, fun _ => (some ⟨0⟩, none), fun _ _ => .ok sampleIndex⟩ 3 rfl).1

/-- Claim C8: when the final path segment of the runtime symbol has no
`.` separator (so it cannot be decomposed into package + local name), the
lookup fails with the typed error `unexpectedSymbolForm` rather than a
silent zero value. -/
theorem dotless_symbol_unexpected_form (l : Lookup) (env : FuncEnv) (pc : Nat)
    (rfunc : RuntimeFunc) (f : AstFile) (e : Option String) (p : FileIndex)
    (h1 : env.funcForPC pc = some rfunc)
    (h2 : env.parseFile rfunc.filename = (some f, e))
    (h3 : env.collectFile l.IncludeUnexported f = .ok p)
    (h4 : '.' ∉ (goSplit '/' rfunc.name.data).getLastD []) :
    l.LookupFromFuncForPC env pc = .error (.unexpectedSymbolForm rfunc.name) := by
  unfold Lookup.LookupFromFuncForPC
  rw [h1]
  simp only [h2, h3]
  unfold lookupRecord demangle
  simp only [goCut_of_not_mem h4]
  simp

/-- Witness for C8: pc 8 of the sample environment resolves to the
dotless symbol `nodotsymbol`. -/
theorem dotless_symbol_unexpected_form_witness :
    Lookup.LookupFromFuncForPC NewLookup sampleFuncEnv 8
      = .error (.unexpectedSymbolForm "nodotsymbol") :=
  dotless_symbol_unexpected_form NewLookup sampleFuncEnv 8
    ⟨"nodotsymbol", "file.go"⟩ ⟨0⟩ (some "file.go:3:1: expected declaration")
    sampleIndex rfl rfl rfl (by decide)

/-- Claim C10: single-file parsing fails the lookup only when the parser
returns no syntax tree (and then with the parser's error, whatever it
is); when the parser returns a tree together with any error value, the
error is discarded and the lookup proceeds to index that tree — the
result does not mention `e`. -/
theorem partial_parse_tree_proceeds (l : Lookup) (env : FuncEnv) (pc : Nat)
    (rfunc : RuntimeFunc) (h1 : env.funcForPC pc = some rfunc) :
    (∀ e, env.parseFile rfunc.filename = (none, e) →
      l.LookupFromFuncForPC env pc = .error (.parseFailed e)) ∧
    (∀ f e, env.parseFile rfunc.filename = (some f, e) →
      l.LookupFromFuncForPC env pc =
        match env.collectFile l.IncludeUnexported f with
        | .error err => .error (.collectFailed err)
        | .ok p => lookupRecord p rfunc.name pc) := by
  constructor
  · intro e h2
    unfold Lookup.LookupFromFuncForPC
    rw [h1]
    simp only [h2]
  · intro f e h2
    unfold Lookup.LookupFromFuncForPC
    rw [h1]
    simp only [h2]

/-- Witness for C10: the sample parser returns a tree together with a
non-nil error; the lookup still proceeds to record selection. -/
theorem partial_parse_tree_proceeds_witness :
    Lookup.LookupFromFuncForPC NewLookup sampleFuncEnv 7
      = lookupRecord sampleIndex "example.com/pkg.(*T).M-fm" 7 :=
  (partial_parse_tree_proceeds NewLookup sampleFuncEnv 7
      ⟨"example.com/pkg.(*T).M-fm", "file.go"⟩ rfl).2
    ⟨0⟩ (some "file.go:3:1: expected declaration") rfl

theorem lookupStructLoop_ok (l : Lookup) (obname pkgpath : String)
    (pkgs : List LoadedPackage) (s : Struct)
    (h : lookupStructLoop l obname pkgpath pkgs = .ok s) :
    ∃ pkg ∈ pkgs, pkg.hasErrors = false ∧ pkg.PkgPath = pkgpath ∧
      ∃ p, pkg.collectPackage l.IncludeUnexported = .ok p ∧
        p.Types.lookup obname = some s.Raw := by
  induction pkgs with
  | nil => simp [lookupStructLoop] at h
  | cons pkg rest ih =>
    simp only [lookupStructLoop] at h
    split at h
    · obtain ⟨q, hq, hr⟩ := ih h
      exact ⟨q, List.mem_cons_of_mem _ hq, hr⟩
    · next he =>
      split at h
      · obtain ⟨q, hq, hr⟩ := ih h
        exact ⟨q, List.mem_cons_of_mem _ hq, hr⟩
      · next hp =>
        split at h
        · exact absurd h (by simp)
        · next p hc =>
          split at h
          · obtain ⟨q, hq, hr⟩ := ih h
            exact ⟨q, List.mem_cons_of_mem _ hq, hr⟩
          · next r ht =>
            refine ⟨pkg, List.mem_cons_self _ _, by simpa using he, by simpa using hp,
              p, hc, ?_⟩
            rw [ht]
            cases s with
            | mk raw =>
              have := (Except.ok.injEq (ε := StructErr) _ _).mp h
              simp only [Struct.mk.injEq] at this
              rw [this]

theorem lookupStructLoop_notFound (l : Lookup) (obname pkgpath : String)
    (pkgs : List LoadedPackage)
    (h : ∀ pkg ∈ pkgs, pkg.hasErrors = false → pkg.PkgPath = pkgpath →
      ∃ p, pkg.collectPackage l.IncludeUnexported = .ok p ∧
        p.Types.lookup obname = none) :
    lookupStructLoop l obname pkgpath pkgs = .error .notFound := by
  induction pkgs with
  | nil => rfl
  | cons pkg rest ih =>
    have hrest := ih (fun q hq => h q (List.mem_cons_of_mem _ hq))
    simp only [lookupStructLoop]
    split
    · exact hrest
    · next he =>
      split
      · exact hrest
      · next hp =>
        obtain ⟨p, hc, ht⟩ := h pkg (List.mem_cons_self _ _)
          (by simpa using he) (by simpa using hp)
        simp only [hc, ht]
        exact hrest

/-- Claim C3: a non-error `Struct` is produced only from a loaded package
whose path is exactly the resolved declaring package path and whose
indexed types contain the type name (errored or path-mismatched
candidates are skipped); and when every matching candidate indexes
cleanly but lacks the type name, the lookup returns `ErrNotFound`, never
a zero-valued result. -/
theorem struct_lookup_exact_package (l : Lookup) (env : StructEnv)
    (obname pkgpath : String) :
    (∀ s, l.LookupFromStructForReflectType env obname pkgpath = .ok s →
      ∃ resolved, resolvePkgPath env.buildInfoPath pkgpath = some resolved ∧
      ∃ pkgs, env.load resolved = .ok pkgs ∧
      ∃ pkg ∈ pkgs, pkg.hasErrors = false ∧ pkg.PkgPath = resolved ∧
        ∃ p, pkg.collectPackage l.IncludeUnexported = .ok p ∧
          p.Types.lookup obname = some s.Raw) ∧
    (∀ resolved pkgs,
      resolvePkgPath env.buildInfoPath pkgpath = some resolved →
      env.load resolved = .ok pkgs →
      (∀ pkg ∈ pkgs, pkg.hasErrors = false → pkg.PkgPath = resolved →
        ∃ p, pkg.collectPackage l.IncludeUnexported = .ok p ∧
          p.Types.lookup obname = none) →
      l.LookupFromStructForReflectType env obname pkgpath
        = .error .notFound) := by
  constructor
  · intro s h
    unfold Lookup.LookupFromStructForReflectType at h
    split at h
    · exact absurd h (by simp)
    · next real hr =>
      unfold Lookup.lookupResolved at h
      split at h
      · exact absurd h (by simp)
      · next pkgs hl =>
        exact ⟨real, hr, pkgs, hl, lookupStructLoop_ok l obname real pkgs s h⟩
  · intro resolved pkgs hr hl hall
    unfold Lookup.LookupFromStructForReflectType
    rw [hr]
    show l.lookupResolved env obname resolved = .error .notFound
    unfold Lookup.lookupResolved
    rw [hl]
    exact lookupStructLoop_notFound l obname resolved pkgs hall

/-- Witness for C3: the successful sample lookup pins down the exact
package and type-name match it came from. -/
theorem struct_lookup_exact_package_witness :
    ∃ resolved,
      resolvePkgPath sampleStructEnv.buildInfoPath "example.com/app"
        = some resolved ∧
    ∃ pkgs, sampleStructEnv.load resolved = .ok pkgs ∧
    ∃ pkg ∈ pkgs, pkg.hasErrors = false ∧ pkg.PkgPath = resolved ∧
      ∃ p, pkg.collectPackage NewLookup.IncludeUnexported = .ok p ∧
        p.Types.lookup "User" = some (Struct.mk sampleObject).Raw :=
  (struct_lookup_exact_package NewLookup sampleStructEnv "User"
    "example.com/app").1 (Struct.mk sampleObject) (by rfl)

/-- Claim C6: a reflected package path equal to the sentinel `"main"` is
replaced by the real import path from the binary's build metadata before
any package is loaded, and when that metadata is unavailable the lookup
fails with `ErrNotFound` without loading anything (the conclusion holds
for every `load`, which the quantification over `env` makes explicit). -/
theorem main_sentinel_build_info (l : Lookup) (env : StructEnv)
    (obname : String) :
    (env.buildInfoPath = none →
      l.LookupFromStructForReflectType env obname "main"
        = .error .notFound) ∧
    (∀ real, env.buildInfoPath = some real →
      l.LookupFromStructForReflectType env obname "main"
        = l.lookupResolved env obname real) := by
  constructor
  · intro h
    unfold Lookup.LookupFromStructForReflectType resolvePkgPath
    rw [if_pos rfl, h]
  · intro real h
    unfold Lookup.LookupFromStructForReflectType resolvePkgPath
    rw [if_pos rfl, h]

/-- Witness for C6: with build metadata present the `"main"` path is
substituted before loading; with it absent the lookup is `notFound`. -/
theorem main_sentinel_build_info_witness :
    Lookup.LookupFromStructForReflectType NewLookup sampleStructEnv "User" "main"
      = Lookup.lookupResolved NewLookup sampleStructEnv "User"
          "example.com/app" ∧
    Lookup.LookupFromStructForReflectType NewLookup
        { sampleStructEnv with buildInfoPath := none } "User" "main"
      = .error .notFound :=
  ⟨(main_sentinel_build_info NewLookup sampleStructEnv "User").2
      "example.com/app" rfl,
   (main_sentinel_build_info NewLookup
      { sampleStructEnv with buildInfoPath := none } "User").1 rfl⟩

/-- Claim C9: `NewLookup` defaults `IncludeUnexported` to `false`, but
whenever `Config.Extract` constructs its internal lookup (no lookup yet,
`SkipComments` false) it sets `IncludeUnexported` to `true`
unconditionally — for every configuration, so no `Config` field can
exclude unexported identifiers. -/
theorem extract_forces_include_unexported :
    NewLookup.IncludeUnexported = false ∧
    ∀ c : Config, c.lookup = none → c.SkipComments = false →
      ∃ lk, (c.extractSetup).lookup = some lk ∧
        lk.IncludeUnexported = true ∧
        lk.IncludeGoTestFiles = c.IncludeGoTestFiles := by
  refine ⟨rfl, ?_⟩
  intro c h1 h2
  unfold Config.extractSetup
  by_cases hd : c.DocTruncationSize = 0 <;>
    simp [hd, h1, h2, NewLookup]

/-- Witness for C9 at a concrete configuration. -/
theorem extract_forces_include_unexported_witness :
    ∃ lk, (Config.mk false false false true 0 none).extractSetup.lookup
        = some lk ∧
      lk.IncludeUnexported = true ∧ lk.IncludeGoTestFiles = true :=
  extract_forces_include_unexported.2
    (Config.mk false false false true 0 none) rfl rfl

end ReflectShape
